import Mathlib

/-!
Verification of the `jasmin_metadata` Django app (cedadev/jasmin-metadata).

The development shallowly embeds the metadata subsystem:

* `Metadatum` mirrors `jasmin_metadata/models/base.py`: a row keyed by the
  weak reference pair `(content_type, object_id)` plus a `key`, carrying a
  nullable pickled `value` (modelled as `Option Value`, the decoded view
  that `PickledObjectField` presents to Python code).
* The database of metadata rows is a `List Metadatum`; Django querysets
  become list filters.
* `HasMetadata.copy_metadata_to`, `HasMetadataModelAdmin.save_model`,
  `HasMetadataModelAdmin.get_metadata_form_initial_data` and
  `FieldAdmin.register_field_type` are translated operation by operation.
* The dynamic form validation (`MetadataForm` / the schema compiler) and the
  per-field store update performed by `MetadataForm.save` live in a module
  that is not part of the analysed sources; they are modelled from the
  specification where needed and marked as such.
-/

namespace JasminMetadata

/-- Scalar payloads storable in a `Metadatum` value: the field types offered
by the app produce booleans, ints, strings and date/time values (see the
`register_field_type` calls in `admin.py`). -/
inductive Scalar where
  | sbool (b : Bool)
  | sint (i : Int)
  | sstr (s : String)
  | sdate (y m d : Nat)
  | stime (h mi sec : Nat)
  | sdatetime (y mo d h mi sec : Nat)
deriving DecidableEq, Repr

/-- A pickled value: a scalar, or a list of scalars (the multiple-choice
field type submits a list of choice values). -/
inductive Value where
  | scalar (s : Scalar)
  | list (xs : List Scalar)
deriving DecidableEq, Repr

/-- One row of the `Metadatum` table (`models/base.py` lines 16-34):
`content_type` is the foreign key to the entity's `ContentType` (modelled as
a numeric id), `object_id` is the entity's primary key stored as text, `key`
is the metadata key, and `value` is the pickled value, nullable
(`PickledObjectField(null = True)`). -/
structure Metadatum where
  content_type : Nat
  object_id : String
  key : String
  value : Option Value
deriving DecidableEq, Repr

/-- Does a row belong to the entity `(ct, oid)`?  This is the filter used by
`Metadatum.objects.filter(content_type = ..., object_id = ...)` and by the
`GenericRelation` on `HasMetadata`. -/
def entityMatch (ct : Nat) (oid : String) (d : Metadatum) : Bool :=
  d.content_type == ct && d.object_id == oid

/-- `self.metadata.all()` / `Metadatum.objects.filter(...)`: all rows of the
given entity, in table order. -/
def metadataAll (db : List Metadatum) (ct : Nat) (oid : String) : List Metadatum :=
  db.filter (entityMatch ct oid)

/-- `Metadatum.objects.filter(content_type = ..., object_id = ...).delete()`:
removes every row of the given entity. -/
def deleteAllFor (db : List Metadatum) (ct : Nat) (oid : String) : List Metadatum :=
  db.filter (fun d => !entityMatch ct oid d)

/-- `HasMetadata.copy_metadata_to` (`models/base.py` lines 47-59), for a
source entity `(selfCt, selfId)` and a destination object with content type
`objCt` and primary key `objId`:
first `Metadatum.objects.filter(content_type, object_id = obj.pk).delete()`
removes the destination's rows, then the loop `for datum in
self.metadata.all()` creates one row per source row with the same key and
value.  The queryset `self.metadata.all()` is lazy and is executed only when
the loop iterates, i.e. after the delete, so the source rows are read from
the post-delete table. -/
def copy_metadata_to (db : List Metadatum) (selfCt : Nat) (selfId : String)
    (objCt : Nat) (objId : String) : List Metadatum :=
  let afterDelete := deleteAllFor db objCt objId
  afterDelete ++ (metadataAll afterDelete selfCt selfId).map
    (fun datum =>
      { content_type := objCt, object_id := objId
        key := datum.key, value := datum.value })

/-- `HasMetadataModelAdmin.get_metadata_form_initial_data` (`admin.py` lines
195-202): the dict `{ d.key : d.value for d in metadata.all() }` for the
object's rows, as an association list in table order. -/
def get_metadata_form_initial_data (db : List Metadatum) (ct : Nat)
    (oid : String) : List (String × Option Value) :=
  (metadataAll db ct oid).map (fun d => (d.key, d.value))

/-- Look up one key of one entity: the first row of the entity with that key,
if any, giving its (nullable) value.  `some none` means the key is present
with a null value; `none` means the key is absent. -/
def lookupMeta (db : List Metadatum) (ct : Nat) (oid : String) (k : String) :
    Option (Option Value) :=
  ((metadataAll db ct oid).find? (fun d => d.key == k)).map (·.value)

/-- The uniqueness invariant enforced by
`unique_together = ('content_type', 'object_id', 'key')` on `Metadatum`
(`models/base.py` line 26): no two rows share the same entity and key. -/
def KeyUnique (db : List Metadatum) : Prop :=
  db.Pairwise (fun a b =>
    ¬(a.content_type = b.content_type ∧ a.object_id = b.object_id ∧ a.key = b.key))

instance : DecidablePred KeyUnique := fun db =>
  inferInstanceAs (Decidable (db.Pairwise _))

/-- Modelled from the spec: `MetadataStore.set` is not in the analysed
sources (only its callers in `admin.py` are).  Spec §4.4: "set(entityType,
entityId, key, encodedValue) upserts exactly one row (insert-or-replace keyed
by the uniqueness invariant)". -/
def setMeta (db : List Metadatum) (ct : Nat) (oid : String) (k : String)
    (v : Option Value) : List Metadatum :=
  if db.any (fun d => entityMatch ct oid d && d.key == k) then
    db.map (fun d =>
      if entityMatch ct oid d && d.key == k then { d with value := v } else d)
  else
    db ++ [{ content_type := ct, object_id := oid, key := k, value := v }]

/-- Number of rows of one entity carrying one key: the cardinality governed
by the `unique_together` constraint. -/
def countTriple (db : List Metadatum) (ct : Nat) (oid : String) (k : String) :
    Nat :=
  (db.filter (fun d => entityMatch ct oid d && d.key == k)).length

/-- One field definition of a compiled schema: its name (the metadata key),
its required flag, and its validation rule, a closure capturing the
field-type specific configuration. -/
structure FieldDef where
  name : String
  required : Bool
  rule : Value → Bool

/-- A per-field validation error. -/
inductive FieldError where
  | missingRequired (field : String)
  | invalidValue (field : String)
deriving DecidableEq, Repr

/-- The outcome of validating one field against the submitted raw values:
`none` when the field passes (or is absent and optional), `some e` when it
records an error. -/
def validateField (raw : List (String × Value)) (f : FieldDef) :
    Option FieldError :=
  match raw.find? (fun p => p.1 == f.name) with
  | none => if f.required then some (.missingRequired f.name) else none
  | some p => if f.rule p.2 then none else some (.invalidValue f.name)

/-- Modelled from the spec: `Schema.validate` — the dynamic form module that
compiles a Form's fields into a validator is not in the analysed sources.
Spec §4.3 algorithm: walk the fields in order; an absent required field
records `MissingRequiredError`, an absent optional field produces no entry,
a present value failing the field's rule records `InvalidValueError`, a
passing value is added to the validated map; errors accumulate across all
fields with no short-circuit. -/
def validate (fields : List FieldDef) (raw : List (String × Value)) :
    List (String × Value) × List FieldError :=
  fields.foldl (fun acc f =>
    match raw.find? (fun p => p.1 == f.name) with
    | none =>
        if f.required then (acc.1, acc.2 ++ [.missingRequired f.name]) else acc
    | some p =>
        if f.rule p.2 then (acc.1 ++ [(f.name, p.2)], acc.2)
        else (acc.1, acc.2 ++ [.invalidValue f.name]))
    ([], [])

/-- `django.forms.Form.is_valid()` for the metadata form: the submission is
valid exactly when validation recorded no errors. -/
def is_valid (fields : List FieldDef) (raw : List (String × Value)) : Bool :=
  (validate fields raw).2.isEmpty

/-- The validated entry one field contributes, if any: its submitted value
when present and passing the field's rule. -/
def validatedOf (raw : List (String × Value)) (f : FieldDef) :
    Option (String × Value) :=
  match raw.find? (fun p => p.1 == f.name) with
  | none => none
  | some p => if f.rule p.2 then some (f.name, p.2) else none

/-- Modelled from the spec: `MetadataForm.save(obj)` is not in the analysed
sources.  Spec §4.5: "If valid, for every field name present in the
validated map, call `MetadataStore.set`". -/
def metadataFormSave (db : List Metadatum) (ct : Nat) (oid : String)
    (validated : List (String × Value)) : List Metadatum :=
  validated.foldl (fun acc p => setMeta acc ct oid p.1 (some p.2)) db

/-- The POST data of an admin save request, as far as `save_model` inspects
it: whether the `_has_metadata` marker is present, and the submitted raw
metadata values (the fields with the `metadata` prefix). -/
structure PostData where
  hasMetadataMarker : Bool
  raw : List (String × Value)

/-- The persistent state touched by the admin: the saved owning objects
(entity references) and the `Metadatum` table. -/
structure DBState where
  objects : List (Nat × String)
  metadata : List Metadatum
deriving DecidableEq, Repr

/-- `super().save_model(request, obj, form, change)`: Django's default admin
saves the owning object (a write to the object's own table). -/
def saveObj (st : DBState) (obj : Nat × String) : DBState :=
  { st with objects := st.objects ++ [obj] }

/-- `HasMetadataModelAdmin.save_model` (`admin.py` lines 204-217).
`cfg` is `get_metadata_form_class(...)`: `none` means no metadata form is
configured, `some fields` is the configured form's compiled field list.
With no form class the default save runs.  Otherwise the object and the
metadata are saved only when `_has_metadata` is in the POST data and the
metadata form validates; in every other case the method returns without
writing anything. -/
def save_model (cfg : Option (List FieldDef)) (post : PostData)
    (obj : Nat × String) (st : DBState) : DBState :=
  match cfg with
  | none => saveObj st obj
  | some fields =>
      if post.hasMetadataMarker then
        if is_valid fields post.raw then
          let st1 := saveObj st obj
          { st1 with
            metadata := metadataFormSave st1.metadata obj.1 obj.2
              (validate fields post.raw).1 }
        else st
      else st

/-- `FieldAdmin.register_field_type` (`admin.py` lines 48-56): when no admin
class is supplied one is synthesised with the name `<model>Admin`, and the
pair is appended to `cls.child_models` unconditionally. -/
def register_field_type (child_models : List (String × String))
    (model : String) (model_admin : Option String) : List (String × String) :=
  let model_admin :=
    match model_admin with
    | none => model ++ "Admin"
    | some a => a
  child_models ++ [(model, model_admin)]

/-- `Metadatum` rows having a given field-type model registered: how many
entries of the registry carry this model. -/
def countModel (child_models : List (String × String)) (model : String) : Nat :=
  (child_models.filter (fun p => p.1 == model)).length

/-- Deleting one `Metadatum` row from the admin or the ORM: the row is
removed from the metadata table; the object tables are untouched (nothing in
the app links an entity's lifetime to its metadata rows' deletion). -/
def deleteMetadatum (st : DBState) (m : Metadatum) : DBState :=
  { st with metadata := st.metadata.filter (fun d => d ≠ m) }

/-- Deleting an external entity, with Django's collector semantics for the
declaration `metadata = GenericRelation(Metadatum, ...)` on `HasMetadata`
(`models/base.py` lines 44-45): deleting an instance of a model that
declares the `GenericRelation` also collects and deletes every `Metadatum`
row pointing at it; deleting an instance of a model without the relation
leaves the `Metadatum` table untouched (the generic foreign key has no
database-level constraint on the entity).  `hasMetadataCts` is the set of
content types whose models inherit `HasMetadata`. -/
def deleteEntity (hasMetadataCts : List Nat) (st : DBState)
    (e : Nat × String) : DBState :=
  { objects := st.objects.filter (fun o => o ≠ e)
    metadata :=
      if hasMetadataCts.contains e.1 then
        deleteAllFor st.metadata e.1 e.2
      else st.metadata }

/-- A token of the serialised byte stream stored in the encoded-value
column.  A token is a tag/number (modelling pickle opcodes and varint
numbers) or a run of text (modelling a length-prefixed string payload). -/
inductive Tok where
  | num (k : Nat)
  | txt (s : String)
deriving DecidableEq, Repr

/-- Modelled from the spec: the value codec of `PickledObjectField` (the
pickling library is outside the analysed sources).  Spec §4.4/§9: values are
stored via an explicit encode function into the encoded-value column so that
scalar and date/time payloads round-trip losslessly. -/
def encodeScalar : Scalar → List Tok
  | .sbool b => [.num 0, .num (if b then 1 else 0)]
  | .sint i => [.num 1, .num (if i < 0 then 1 else 0), .num i.natAbs]
  | .sstr s => [.num 2, .txt s]
  | .sdate y m d => [.num 3, .num y, .num m, .num d]
  | .stime h mi sec => [.num 4, .num h, .num mi, .num sec]
  | .sdatetime y mo d h mi sec =>
      [.num 5, .num y, .num mo, .num d, .num h, .num mi, .num sec]

/-- Modelled from the spec: the scalar decoder, consuming one scalar from
the front of the stream and returning the remainder. -/
def decodeScalar : List Tok → Option (Scalar × List Tok)
  | .num 0 :: .num b :: rest => some (.sbool (b == 1), rest)
  | .num 1 :: .num sg :: .num m :: rest =>
      some (.sint (if sg == 1 then -(m : Int) else (m : Int)), rest)
  | .num 2 :: .txt s :: rest => some (.sstr s, rest)
  | .num 3 :: .num y :: .num m :: .num d :: rest => some (.sdate y m d, rest)
  | .num 4 :: .num h :: .num mi :: .num sec :: rest =>
      some (.stime h mi sec, rest)
  | .num 5 :: .num y :: .num mo :: .num d :: .num h :: .num mi :: .num sec
      :: rest => some (.sdatetime y mo d h mi sec, rest)
  | _ => none

/-- Modelled from the spec: the full value codec — a tagged scalar, or a
count-prefixed list of scalars (the multiple-choice payload). -/
def encodeValue : Value → List Tok
  | .scalar s => .num 10 :: encodeScalar s
  | .list xs => .num 11 :: .num xs.length :: (xs.map encodeScalar).flatten

/-- Decode exactly `k` scalars from the front of the stream. -/
def decodeScalars : Nat → List Tok → Option (List Scalar × List Tok)
  | 0, rest => some ([], rest)
  | k + 1, rest =>
      match decodeScalar rest with
      | none => none
      | some (s, rest₁) =>
          match decodeScalars k rest₁ with
          | none => none
          | some (xs, rest₂) => some (s :: xs, rest₂)

/-- Modelled from the spec: decode a whole stored stream back to a value;
fails on a malformed stream or trailing garbage. -/
def decodeValue : List Tok → Option Value
  | .num 10 :: rest =>
      (decodeScalar rest).bind
        (fun p => if p.2.isEmpty then some (.scalar p.1) else none)
  | .num 11 :: .num k :: rest =>
      (decodeScalars k rest).bind
        (fun p => if p.2.isEmpty then some (.list p.1) else none)
  | _ => none

/-- One `Metadatum` row at the physical level: the value column holds the
encoded stream (`stored`), nullable.  This is the on-disk view of the same
table that `Metadatum` models at the decoded level. -/
structure StoredRow where
  content_type : Nat
  object_id : String
  key : String
  stored : Option (List Tok)
deriving DecidableEq, Repr

/-- Row selector for one entity and key at the physical level. -/
def storedMatch (ct : Nat) (oid : String) (k : String) (r : StoredRow) : Bool :=
  r.content_type == ct && r.object_id == oid && r.key == k

/-- Modelled from the spec: `MetadataStore.set` at the physical level —
upsert one row whose value column holds the encoding of `v`. -/
def storeSet (db : List StoredRow) (ct : Nat) (oid : String) (k : String)
    (v : Value) : List StoredRow :=
  if db.any (storedMatch ct oid k) then
    db.map (fun r =>
      if storedMatch ct oid k r then { r with stored := some (encodeValue v) }
      else r)
  else
    db ++ [{ content_type := ct, object_id := oid, key := k
             stored := some (encodeValue v) }]

/-- Modelled from the spec: `MetadataStore.get` for one key at the physical
level — find the row and decode its value column. -/
def storeGet (db : List StoredRow) (ct : Nat) (oid : String) (k : String) :
    Option Value :=
  match db.find? (storedMatch ct oid k) with
  | none => none
  | some r => r.stored.bind decodeValue

/-! ### Codec lemmas -/

lemma decodeScalar_encodeScalar (s : Scalar) (rest : List Tok) :
    decodeScalar (encodeScalar s ++ rest) = some (s, rest) := by
  cases s with
  | sbool b => cases b <;> simp [encodeScalar, decodeScalar]
  | sint i =>
      rcases lt_or_le i 0 with h | h
      · simp only [encodeScalar, if_pos h, List.cons_append, List.nil_append,
          decodeScalar, Option.some.injEq, Prod.mk.injEq, and_true,
          Scalar.sint.injEq]
        rw [if_pos (by decide)]
        omega
      · simp only [encodeScalar, if_neg (not_lt.mpr h), List.cons_append,
          List.nil_append, decodeScalar, Option.some.injEq, Prod.mk.injEq,
          and_true, Scalar.sint.injEq]
        rw [if_neg (by decide)]
        omega
  | sstr s => simp [encodeScalar, decodeScalar]
  | sdate y m d => simp [encodeScalar, decodeScalar]
  | stime h mi sec => simp [encodeScalar, decodeScalar]
  | sdatetime y mo d h mi sec => simp [encodeScalar, decodeScalar]

lemma decodeScalars_encode (xs : List Scalar) (rest : List Tok) :
    decodeScalars xs.length ((xs.map encodeScalar).flatten ++ rest) =
      some (xs, rest) := by
  induction xs generalizing rest with
  | nil => simp [decodeScalars]
  | cons x xs ih =>
      simp only [List.map_cons, List.flatten_cons, List.length_cons,
        List.append_assoc, decodeScalars, decodeScalar_encodeScalar, ih]

lemma decodeValue_encodeValue (v : Value) :
    decodeValue (encodeValue v) = some v := by
  cases v with
  | scalar s =>
      have h := decodeScalar_encodeScalar s []
      simp only [List.append_nil] at h
      simp [encodeValue, decodeValue, h]
  | list xs =>
      have h := decodeScalars_encode xs []
      simp only [List.append_nil] at h
      simp [encodeValue, decodeValue, h]

lemma find?_storeSet_map (ct : Nat) (oid : String) (k : String)
    (enc : List Tok) :
    ∀ db : List StoredRow, db.any (storedMatch ct oid k) = true →
      (db.map (fun r =>
          if storedMatch ct oid k r then { r with stored := some enc }
          else r)).find? (storedMatch ct oid k) =
        some { content_type := ct, object_id := oid, key := k
               stored := some enc } := by
  intro db
  induction db with
  | nil => simp
  | cons r rest ih =>
      intro hany
      by_cases hm : storedMatch ct oid k r = true
      · obtain ⟨h1, h2, h3⟩ : r.content_type = ct ∧ r.object_id = oid ∧
            r.key = k := by
          simpa [storedMatch, and_assoc] using hm
        cases r
        simp only at h1 h2 h3
        subst h1; subst h2; subst h3
        simp [storedMatch, List.find?]
      · have hr : rest.any (storedMatch ct oid k) = true := by
          rcases List.any_eq_true.mp hany with ⟨x, hx, hpx⟩
          rcases List.mem_cons.mp hx with hx | hx
          · exact absurd (hx ▸ hpx) hm
          · exact List.any_eq_true.mpr ⟨x, hx, hpx⟩
        simp only [List.map_cons]
        rw [if_neg hm, List.find?_cons_of_neg _ hm]
        exact ih hr

/-- C6: For every field type and every valid raw input value, storing the
value and then reading it back through the encoded-value column returns an
equal value — `decode(encode(value)) == value` for `MetadataStore.set`
followed by `get`, for arbitrary scalar, list and date/time payloads. -/
theorem storeGet_storeSet_roundtrip (db : List StoredRow) (ct : Nat)
    (oid : String) (k : String) (v : Value) :
    storeGet (storeSet db ct oid k v) ct oid k = some v := by
  unfold storeSet
  by_cases hany : db.any (storedMatch ct oid k) = true
  · rw [if_pos hany]
    unfold storeGet
    rw [find?_storeSet_map ct oid k (encodeValue v) db hany]
    simp [decodeValue_encodeValue]
  · rw [if_neg hany]
    unfold storeGet
    have hnone : db.find? (storedMatch ct oid k) = none := by
      rw [List.find?_eq_none]
      intro x hx hpx
      exact hany (List.any_eq_true.mpr ⟨x, hx, hpx⟩)
    rw [List.find?_append, hnone]
    simp [storedMatch, decodeValue_encodeValue]

/-! ### Lemmas about entity filters and `copy_metadata_to` -/

lemma entityMatch_iff {ct : Nat} {oid : String} {d : Metadatum} :
    entityMatch ct oid d = true ↔ d.content_type = ct ∧ d.object_id = oid := by
  simp [entityMatch]

lemma metadataAll_append (a b : List Metadatum) (ct : Nat) (oid : String) :
    metadataAll (a ++ b) ct oid = metadataAll a ct oid ++ metadataAll b ct oid :=
  List.filter_append ..

lemma metadataAll_deleteAllFor_self (db : List Metadatum) (ct : Nat)
    (oid : String) : metadataAll (deleteAllFor db ct oid) ct oid = [] := by
  unfold metadataAll deleteAllFor
  rw [List.filter_filter]
  apply List.eq_nil_of_length_eq_zero
  rw [List.length_eq_zero]
  apply List.filter_eq_nil_iff.mpr
  intro d _
  cases h : entityMatch ct oid d <;> simp [h]

lemma metadataAll_deleteAllFor_ne {ct dct : Nat} {oid did : String}
    (db : List Metadatum) (h : (ct, oid) ≠ (dct, did)) :
    metadataAll (deleteAllFor db dct did) ct oid = metadataAll db ct oid := by
  unfold metadataAll deleteAllFor
  rw [List.filter_filter]
  apply List.filter_congr
  intro d _
  by_cases hd : entityMatch ct oid d = true
  · have hdd : entityMatch dct did d = false := by
      rcases entityMatch_iff.mp hd with ⟨h1, h2⟩
      by_contra hc
      rcases entityMatch_iff.mp (by simpa using hc) with ⟨h3, h4⟩
      exact h (by simp [Prod.ext_iff, ← h1, ← h2, ← h3, ← h4])
    simp [hd, hdd]
  · simp [Bool.eq_false_iff.mpr hd]

lemma metadataAll_map_copied (l : List Metadatum) (objCt : Nat)
    (objId : String) :
    metadataAll
      (l.map (fun datum =>
        { content_type := objCt, object_id := objId
          key := datum.key, value := datum.value })) objCt objId =
      l.map (fun datum =>
        { content_type := objCt, object_id := objId
          key := datum.key, value := datum.value }) := by
  apply List.filter_eq_self.mpr
  intro a ha
  rcases List.mem_map.mp ha with ⟨d, _, rfl⟩
  simp [entityMatch]

lemma metadataAll_map_copied_ne {ct objCt : Nat} {oid objId : String}
    (l : List Metadatum) (h : (ct, oid) ≠ (objCt, objId)) :
    metadataAll
      (l.map (fun datum =>
        { content_type := objCt, object_id := objId
          key := datum.key, value := datum.value })) ct oid = [] := by
  apply List.filter_eq_nil_iff.mpr
  intro a ha
  rcases List.mem_map.mp ha with ⟨d, _, rfl⟩
  intro hc
  rcases entityMatch_iff.mp hc with ⟨h1, h2⟩
  exact h (by simp [Prod.ext_iff, ← h1, ← h2])

/-- C1 (amended): when the destination entity differs from the source
entity, `copy_metadata_to` first deletes every destination row and then
re-creates one row per source row with identical key and value, so the
destination's mapping afterwards equals the source's mapping at the time of
the copy, regardless of the destination's prior contents (and an empty
source leaves the destination empty).  When source and destination are the
same entity the delete runs before the lazily-evaluated source query, so the
copy leaves that entity with no metadata at all. -/
theorem copy_metadata_to_spec (db : List Metadatum) (sct : Nat) (sid : String)
    (dct : Nat) (did : String) (k : String) :
    ((dct, did) ≠ (sct, sid) →
      lookupMeta (copy_metadata_to db sct sid dct did) dct did k =
        lookupMeta db sct sid k) ∧
    lookupMeta (copy_metadata_to db sct sid sct sid) sct sid k = none := by
  constructor
  · intro h
    unfold copy_metadata_to lookupMeta
    rw [metadataAll_append, metadataAll_deleteAllFor_self,
      metadataAll_map_copied, List.nil_append, List.find?_map,
      metadataAll_deleteAllFor_ne db (Ne.symm h), Option.map_map]
    exact rfl
  · unfold copy_metadata_to lookupMeta
    rw [metadataAll_append, metadataAll_deleteAllFor_self]
    simp [metadataAll]

/-- C1 (counterexample to the original claim): copying an entity's metadata
onto the same entity does not leave the destination's mapping equal to the
source's mapping as it was at the time of the copy — the single key of the
entity disappears. -/
theorem copy_metadata_to_self_counterexample :
    lookupMeta
        (copy_metadata_to [{ content_type := 1, object_id := "1", key := "k"
                             value := some (.scalar (.sbool true)) }]
          1 "1" 1 "1") 1 "1" "k" ≠
      lookupMeta [{ content_type := 1, object_id := "1", key := "k"
                    value := some (.scalar (.sbool true)) }] 1 "1" "k" := by
  decide

/-- C1 (witness): the amended theorem applied to a one-row source and a
distinct destination. -/
theorem copy_metadata_to_spec_witness :
    ((2, "2") : Nat × String) ≠ (1, "1") ∧
    lookupMeta
        (copy_metadata_to [{ content_type := 1, object_id := "1", key := "k"
                             value := some (.scalar (.sint 3)) }]
          1 "1" 2 "2") 2 "2" "k" =
      lookupMeta [{ content_type := 1, object_id := "1", key := "k"
                    value := some (.scalar (.sint 3)) }] 1 "1" "k" :=
  ⟨by decide,
    (copy_metadata_to_spec
      [{ content_type := 1, object_id := "1", key := "k"
         value := some (.scalar (.sint 3)) }] 1 "1" 2 "2" "k").1 (by decide)⟩

/-- C9: `copy_metadata_to` modifies only the destination's rows — every
entity other than the destination, in particular a source distinct from the
destination, keeps exactly its rows. -/
theorem copy_metadata_to_frame (db : List Metadatum) (sct : Nat)
    (sid : String) (dct : Nat) (did : String) (ct : Nat) (oid : String)
    (h : (ct, oid) ≠ (dct, did)) :
    metadataAll (copy_metadata_to db sct sid dct did) ct oid =
      metadataAll db ct oid := by
  unfold copy_metadata_to
  rw [metadataAll_append, metadataAll_deleteAllFor_ne db h,
    metadataAll_map_copied_ne _ h, List.append_nil]

/-- C9 (witness): the frame theorem applied to a two-entity table; the
source's own rows survive a copy to a third entity. -/
theorem copy_metadata_to_frame_witness :
    ((1, "1") : Nat × String) ≠ (2, "2") ∧
    metadataAll
        (copy_metadata_to [{ content_type := 1, object_id := "1", key := "k"
                             value := none }] 1 "1" 2 "2") 1 "1" =
      metadataAll [{ content_type := 1, object_id := "1", key := "k"
                     value := none }] 1 "1" :=
  ⟨by decide,
    copy_metadata_to_frame [{ content_type := 1, object_id := "1", key := "k"
                              value := none }] 1 "1" 2 "2" 1 "1" (by decide)⟩

/-! ### Validation and admin save -/

lemma validate_go (raw : List (String × Value)) (fields : List FieldDef) :
    ∀ acc : List (String × Value) × List FieldError,
      fields.foldl (fun acc f =>
        match raw.find? (fun p => p.1 == f.name) with
        | none =>
            if f.required then (acc.1, acc.2 ++ [.missingRequired f.name])
            else acc
        | some p =>
            if f.rule p.2 then (acc.1 ++ [(f.name, p.2)], acc.2)
            else (acc.1, acc.2 ++ [.invalidValue f.name])) acc =
      (acc.1 ++ fields.filterMap (validatedOf raw),
       acc.2 ++ fields.filterMap (validateField raw)) := by
  induction fields with
  | nil => intro acc; simp
  | cons f fs ih =>
      intro acc
      rw [List.foldl_cons]
      rcases hf : raw.find? (fun p => p.1 == f.name) with _ | p
      · by_cases hr : f.required
        · simp only [hf, if_pos hr, ih]
          simp [validatedOf, validateField, hf, hr]
        · simp only [hf, if_neg hr, ih]
          simp [validatedOf, validateField, hf, hr]
      · by_cases hv : f.rule p.2 = true
        · simp only [hf, if_pos hv, ih]
          simp [validatedOf, validateField, hf, hv]
        · simp only [hf, if_neg hv, ih]
          simp [validatedOf, validateField, hf,
            Bool.eq_false_iff.mpr hv]

lemma validate_eq (fields : List FieldDef) (raw : List (String × Value)) :
    validate fields raw =
      (fields.filterMap (validatedOf raw),
       fields.filterMap (validateField raw)) := by
  unfold validate
  rw [validate_go]
  simp

/-- C7: validation reports the submission as valid exactly when zero
per-field errors were recorded, and the recorded errors are the per-field
outcomes of every field of the schema — errors accumulate across all fields
with no short-circuit, so one call surfaces every failing field. -/
theorem validate_valid_iff_no_errors_accumulated (fields : List FieldDef)
    (raw : List (String × Value)) :
    (is_valid fields raw = true ↔ (validate fields raw).2 = []) ∧
    (validate fields raw).2 = fields.filterMap (validateField raw) := by
  refine ⟨?_, by rw [validate_eq]⟩
  unfold is_valid
  rw [List.isEmpty_iff]

/-- C2: submission of metadata is all-or-nothing — whenever any field of
the metadata form fails validation, `save_model` performs no write: neither
the owning object nor any `Metadatum` row is created or changed. -/
theorem save_model_invalid_no_writes (fields : List FieldDef)
    (post : PostData) (obj : Nat × String) (st : DBState)
    (h : (validate fields post.raw).2 ≠ []) :
    save_model (some fields) post obj st = st := by
  have hv : is_valid fields post.raw = false := by
    unfold is_valid
    rcases hl : (validate fields post.raw).2 with _ | ⟨e, es⟩
    · exact absurd hl h
    · rfl
  unfold save_model
  cases hm : post.hasMetadataMarker <;> simp [hv]

/-- C2 (witness): a schema with one required field and an empty submission
fails validation, and `save_model` leaves the state untouched. -/
theorem save_model_invalid_no_writes_witness :
    (validate [{ name := "age", required := true, rule := fun _ => true }]
        ([] : List (String × Value))).2 ≠ [] ∧
    save_model
        (some [{ name := "age", required := true, rule := fun _ => true }])
        { hasMetadataMarker := true, raw := [] } (1, "1")
        { objects := [], metadata := [] } =
      { objects := [], metadata := [] } :=
  ⟨by decide,
    save_model_invalid_no_writes
      [{ name := "age", required := true, rule := fun _ => true }]
      { hasMetadataMarker := true, raw := [] } (1, "1")
      { objects := [], metadata := [] } (by decide)⟩

/-- C8: with a metadata form class configured, a save request whose POST
data lacks the `_has_metadata` marker performs no write at all — the owning
object is not saved and no `Metadatum` row is touched. -/
theorem save_model_no_marker_no_writes (fields : List FieldDef)
    (post : PostData) (obj : Nat × String) (st : DBState)
    (h : post.hasMetadataMarker = false) :
    save_model (some fields) post obj st = st := by
  simp [save_model, h]

/-- C8 (witness): a marker-less POST leaves a concrete state untouched even
though its raw values would validate. -/
theorem save_model_no_marker_no_writes_witness :
    PostData.hasMetadataMarker
        { hasMetadataMarker := false
          raw := [("age", Value.scalar (.sint 30))] } = false ∧
    save_model (some [{ name := "age", required := true
                        rule := fun _ => true }])
        { hasMetadataMarker := false
          raw := [("age", Value.scalar (.sint 30))] } (1, "1")
        { objects := [(1, "1")], metadata := [] } =
      { objects := [(1, "1")], metadata := [] } :=
  ⟨rfl,
    save_model_no_marker_no_writes
      [{ name := "age", required := true, rule := fun _ => true }]
      { hasMetadataMarker := false
        raw := [("age", Value.scalar (.sint 30))] } (1, "1")
      { objects := [(1, "1")], metadata := [] } rfl⟩

/-- C4 (counterexample to the original claim): registering a field-type
identifier that is already present does not fail and does not leave the
registry unchanged — the pair is appended again, producing two entries. -/
theorem register_field_type_duplicate_counterexample :
    countModel [("BooleanField", "BooleanFieldAdmin")] "BooleanField" = 1 ∧
    register_field_type [("BooleanField", "BooleanFieldAdmin")]
        "BooleanField" none ≠ [("BooleanField", "BooleanFieldAdmin")] ∧
    countModel
        (register_field_type [("BooleanField", "BooleanFieldAdmin")]
          "BooleanField" none) "BooleanField" = 2 := by
  decide

/-- C4 (amended): registering an identifier that is already present in the
registry does not fail: the entry is appended unconditionally, so the
registry changes and afterwards holds one more entry for that identifier (a
duplicate). -/
theorem register_field_type_appends_duplicate
    (r : List (String × String)) (model : String) (ma : Option String)
    (_h : 1 ≤ countModel r model) :
    countModel (register_field_type r model ma) model =
      countModel r model + 1 ∧
    register_field_type r model ma ≠ r := by
  constructor
  · cases ma <;> simp [register_field_type, countModel, List.filter_append]
  · intro hc
    have hlen := congrArg List.length hc
    cases ma <;> simp [register_field_type] at hlen

/-- C4 (witness): the amended theorem applied to a one-entry registry. -/
theorem register_field_type_appends_duplicate_witness :
    1 ≤ countModel [("BooleanField", "BooleanFieldAdmin")] "BooleanField" ∧
    (countModel
        (register_field_type [("BooleanField", "BooleanFieldAdmin")]
          "BooleanField" none) "BooleanField" =
      countModel [("BooleanField", "BooleanFieldAdmin")] "BooleanField" + 1 ∧
    register_field_type [("BooleanField", "BooleanFieldAdmin")]
        "BooleanField" none ≠ [("BooleanField", "BooleanFieldAdmin")]) :=
  ⟨by decide,
    register_field_type_appends_duplicate
      [("BooleanField", "BooleanFieldAdmin")] "BooleanField" none
      (by decide)⟩

/-! ### The `unique_together` invariant -/

lemma keyUnique_setMeta (db : List Metadatum) (ct : Nat) (oid k : String)
    (v : Option Value) (h : KeyUnique db) : KeyUnique (setMeta db ct oid k v) := by
  unfold setMeta
  by_cases hany : db.any (fun d => entityMatch ct oid d && d.key == k) = true
  · rw [if_pos hany]
    unfold KeyUnique at h ⊢
    rw [List.pairwise_map]
    have hg : ∀ d : Metadatum,
        ((if entityMatch ct oid d && d.key == k then { d with value := v }
          else d) : Metadatum).content_type = d.content_type ∧
        ((if entityMatch ct oid d && d.key == k then { d with value := v }
          else d) : Metadatum).object_id = d.object_id ∧
        ((if entityMatch ct oid d && d.key == k then { d with value := v }
          else d) : Metadatum).key = d.key := by
      intro d
      by_cases hd : (entityMatch ct oid d && d.key == k) = true <;> simp [hd]
    refine h.imp ?_
    intro a b hab hc
    apply hab
    rcases hg a with ⟨ga1, ga2, ga3⟩
    rcases hg b with ⟨gb1, gb2, gb3⟩
    rcases hc with ⟨h1, h2, h3⟩
    rw [ga1, gb1] at h1
    rw [ga2, gb2] at h2
    rw [ga3, gb3] at h3
    exact ⟨h1, h2, h3⟩
  · rw [if_neg hany]
    unfold KeyUnique
    rw [List.pairwise_append]
    refine ⟨h, List.pairwise_singleton _ _, ?_⟩
    intro a ha b hb
    rcases List.mem_singleton.mp hb with rfl
    intro hc
    rcases hc with ⟨h1, h2, h3⟩
    exact hany (List.any_eq_true.mpr
      ⟨a, ha, by simp [entityMatch, h1, h2, h3]⟩)

lemma keyUnique_copy (db : List Metadatum) (sct : Nat) (sid : String)
    (dct : Nat) (did : String) (h : KeyUnique db) :
    KeyUnique (copy_metadata_to db sct sid dct did) := by
  unfold copy_metadata_to KeyUnique
  rw [List.pairwise_append]
  refine ⟨h.sublist (List.filter_sublist db), ?_, ?_⟩
  · rw [List.pairwise_map]
    have hsub :
        (metadataAll (deleteAllFor db dct did) sct sid).Sublist db :=
      (List.filter_sublist _).trans (List.filter_sublist _)
    refine List.Pairwise.imp_of_mem ?_ (h.sublist hsub)
    intro a b ha hb hab hc
    rcases hc with ⟨_, _, h3⟩
    apply hab
    rcases entityMatch_iff.mp (List.of_mem_filter ha) with ⟨ha1, ha2⟩
    rcases entityMatch_iff.mp (List.of_mem_filter hb) with ⟨hb1, hb2⟩
    exact ⟨ha1.trans hb1.symm, ha2.trans hb2.symm, h3⟩
  · intro a ha b hb hc
    rcases List.mem_map.mp hb with ⟨d, _, rfl⟩
    rcases hc with ⟨h1, h2, _⟩
    unfold deleteAllFor at ha
    have hfa : entityMatch dct did a = false := by
      simpa using List.of_mem_filter ha
    rw [entityMatch_iff.mpr ⟨h1, h2⟩] at hfa
    exact absurd hfa (by decide)

lemma keyUnique_deleteAllFor (db : List Metadatum) (ct : Nat) (oid : String)
    (h : KeyUnique db) : KeyUnique (deleteAllFor db ct oid) :=
  h.sublist (List.filter_sublist db)

lemma countTriple_pos_iff_any (db : List Metadatum) (ct : Nat)
    (oid k : String) :
    1 ≤ countTriple db ct oid k ↔
      db.any (fun d => entityMatch ct oid d && d.key == k) = true := by
  unfold countTriple
  rw [List.any_eq_true]
  constructor
  · intro h1
    have hne : db.filter (fun d => entityMatch ct oid d && d.key == k) ≠ [] := by
      intro hc
      rw [hc] at h1
      simp at h1
    rcases List.exists_mem_of_ne_nil _ hne with ⟨x, hx⟩
    have hpx := List.of_mem_filter hx
    exact ⟨x, List.mem_of_mem_filter hx, hpx⟩
  · rintro ⟨x, hx, hpx⟩
    exact List.length_pos.mpr
      (List.ne_nil_of_mem (List.mem_filter.mpr ⟨hx, hpx⟩))

lemma countTriple_le_one (db : List Metadatum) (ct : Nat) (oid k : String)
    (h : KeyUnique db) : countTriple db ct oid k ≤ 1 := by
  unfold countTriple
  have hp := h.sublist
    (List.filter_sublist (l := db)
      (p := fun d => entityMatch ct oid d && d.key == k))
  rcases hl : db.filter (fun d => entityMatch ct oid d && d.key == k)
    with _ | ⟨a, rest⟩
  · simp
  · rcases rest with _ | ⟨b, rest2⟩
    · simp
    · exfalso
      rw [hl] at hp
      have hab := (List.pairwise_cons.mp hp).1 b (by simp)
      have ha : a ∈ db.filter (fun d => entityMatch ct oid d && d.key == k) := by
        rw [hl]; simp
      have hb : b ∈ db.filter (fun d => entityMatch ct oid d && d.key == k) := by
        rw [hl]; simp
      have hpa := List.of_mem_filter ha
      have hpb := List.of_mem_filter hb
      simp only [Bool.and_eq_true] at hpa hpb
      rcases hpa with ⟨hpa1, hpa2⟩
      rcases hpb with ⟨hpb1, hpb2⟩
      rcases entityMatch_iff.mp hpa1 with ⟨ha1, ha2⟩
      rcases entityMatch_iff.mp hpb1 with ⟨hb1, hb2⟩
      have hka : a.key = k := by simpa using hpa2
      have hkb : b.key = k := by simpa using hpb2
      exact hab ⟨ha1.trans hb1.symm, ha2.trans hb2.symm, hka.trans hkb.symm⟩

lemma countTriple_setMeta (db : List Metadatum) (ct : Nat) (oid k : String)
    (v : Option Value) (hle : countTriple db ct oid k ≤ 1) :
    countTriple (setMeta db ct oid k v) ct oid k = 1 := by
  unfold setMeta
  by_cases hany : db.any (fun d => entityMatch ct oid d && d.key == k) = true
  · rw [if_pos hany]
    have hmap : countTriple (db.map (fun d =>
        if entityMatch ct oid d && d.key == k then { d with value := v }
        else d)) ct oid k = countTriple db ct oid k := by
      unfold countTriple
      rw [List.filter_map, List.length_map]
      congr 1
      apply List.filter_congr
      intro d _
      simp only [Function.comp_apply]
      by_cases hd : (entityMatch ct oid d && d.key == k) = true
      · rw [if_pos hd]; exact rfl
      · rw [if_neg hd]
    rw [hmap]
    have h1 := (countTriple_pos_iff_any db ct oid k).mpr hany
    omega
  · rw [if_neg hany]
    have h0 : countTriple db ct oid k = 0 := by
      by_contra hc
      exact hany ((countTriple_pos_iff_any db ct oid k).mp (by omega))
    unfold countTriple at h0 ⊢
    rw [List.filter_append, List.length_append, h0]
    simp [entityMatch]

lemma lookupMeta_upsert_map (ct : Nat) (oid k : String) (v : Option Value) :
    ∀ db : List Metadatum,
      db.any (fun d => entityMatch ct oid d && d.key == k) = true →
      lookupMeta (db.map (fun d =>
        if entityMatch ct oid d && d.key == k then { d with value := v }
        else d)) ct oid k = some v := by
  intro db
  induction db with
  | nil => simp
  | cons d rest ih =>
      intro hany
      by_cases hd : (entityMatch ct oid d && d.key == k) = true
      · have hd' := hd
        simp only [Bool.and_eq_true] at hd'
        rcases hd' with ⟨he, hk⟩
        unfold lookupMeta metadataAll
        rw [List.map_cons, if_pos hd,
          List.filter_cons_of_pos (by simpa [entityMatch] using he),
          List.find?_cons_of_pos _ (by simpa using hk)]
        rfl
      · have hr : rest.any (fun d => entityMatch ct oid d && d.key == k)
            = true := by
          rcases List.any_eq_true.mp hany with ⟨x, hx, hpx⟩
          rcases List.mem_cons.mp hx with rfl | hx
          · exact absurd hpx hd
          · exact List.any_eq_true.mpr ⟨x, hx, hpx⟩
        have ihr := ih hr
        unfold lookupMeta metadataAll at ihr ⊢
        rw [List.map_cons, if_neg hd]
        by_cases he : entityMatch ct oid d = true
        · have hk : (d.key == k) = false := by
            cases hkk : d.key == k
            · rfl
            · exact absurd (by rw [he, hkk] :
                (entityMatch ct oid d && (d.key == k)) = (true && true)) hd
          rw [List.filter_cons_of_pos he,
            List.find?_cons_of_neg _ (by simp [hk])]
          exact ihr
        · rw [List.filter_cons_of_neg (by simpa using he)]
          exact ihr

lemma lookupMeta_setMeta (db : List Metadatum) (ct : Nat) (oid k : String)
    (v : Option Value) : lookupMeta (setMeta db ct oid k v) ct oid k = some v := by
  unfold setMeta
  by_cases hany : db.any (fun d => entityMatch ct oid d && d.key == k) = true
  · rw [if_pos hany]
    exact lookupMeta_upsert_map ct oid k v db hany
  · rw [if_neg hany]
    unfold lookupMeta metadataAll
    rw [List.filter_append, List.find?_append]
    have hnone : (db.filter (entityMatch ct oid)).find?
        (fun d => d.key == k) = none := by
      rw [List.find?_eq_none]
      intro x hx hk
      exact hany (List.any_eq_true.mpr
        ⟨x, List.mem_of_mem_filter hx,
          by rw [List.of_mem_filter hx, hk]; rfl⟩)
    rw [hnone]
    simp [entityMatch]

lemma lookupMeta_of_mem (m : Metadatum) :
    ∀ db : List Metadatum, KeyUnique db → m ∈ db →
      lookupMeta db m.content_type m.object_id m.key = some m.value := by
  intro db
  induction db with
  | nil =>
      intro _ hm
      simp at hm
  | cons d rest ih =>
      intro h hm
      have hpw := List.pairwise_cons.mp h
      rcases List.mem_cons.mp hm with rfl | hm'
      · unfold lookupMeta metadataAll
        rw [List.filter_cons_of_pos (by simp [entityMatch]),
          List.find?_cons_of_pos _ (by simp)]
        rfl
      · have ihr := ih hpw.2 hm'
        unfold lookupMeta metadataAll at ihr ⊢
        by_cases he : entityMatch m.content_type m.object_id d = true
        · have hne := hpw.1 m hm'
          rcases entityMatch_iff.mp he with ⟨h1, h2⟩
          have hk : (d.key == m.key) = false := by
            cases hkk : d.key == m.key
            · rfl
            · exact absurd ⟨h1, h2, by simpa using hkk⟩ hne
          rw [List.filter_cons_of_pos he,
            List.find?_cons_of_neg _ (by simp [hk])]
          exact ihr
        · rw [List.filter_cons_of_neg (by simpa using he)]
          exact ihr

/-- C3: the (entity-type, entity-id, key) triple is unique across all
`Metadatum` rows, the invariant is preserved by every metadata operation
(upsert, `copy_metadata_to`, bulk delete), and setting the same
(entityType, entityId, key, value) twice leaves exactly one row carrying
that value. -/
theorem metadatum_triple_unique_invariant (db : List Metadatum)
    (ct sct dct : Nat) (oid sid did k : String) (v : Option Value)
    (h : KeyUnique db) :
    KeyUnique (setMeta db ct oid k v) ∧
    KeyUnique (copy_metadata_to db sct sid dct did) ∧
    KeyUnique (deleteAllFor db ct oid) ∧
    countTriple (setMeta (setMeta db ct oid k v) ct oid k v) ct oid k = 1 ∧
    lookupMeta (setMeta (setMeta db ct oid k v) ct oid k v) ct oid k = some v :=
  ⟨keyUnique_setMeta db ct oid k v h,
   keyUnique_copy db sct sid dct did h,
   keyUnique_deleteAllFor db ct oid h,
   countTriple_setMeta _ ct oid k v
     (le_of_eq (countTriple_setMeta db ct oid k v
       (countTriple_le_one db ct oid k h))),
   lookupMeta_setMeta _ ct oid k v⟩

/-- C3 (witness): the invariant theorem applied to a one-row table. -/
theorem metadatum_triple_unique_invariant_witness :
    KeyUnique [{ content_type := 1, object_id := "1", key := "a"
                 value := some (.scalar (.sbool true)) }] ∧
    (KeyUnique (setMeta [{ content_type := 1, object_id := "1", key := "a"
                           value := some (.scalar (.sbool true)) }]
        1 "1" "a" (some (.scalar (.sint 2)))) ∧
     KeyUnique (copy_metadata_to
        [{ content_type := 1, object_id := "1", key := "a"
           value := some (.scalar (.sbool true)) }] 2 "2" 3 "3") ∧
     KeyUnique (deleteAllFor
        [{ content_type := 1, object_id := "1", key := "a"
           value := some (.scalar (.sbool true)) }] 1 "1") ∧
     countTriple (setMeta (setMeta
        [{ content_type := 1, object_id := "1", key := "a"
           value := some (.scalar (.sbool true)) }]
        1 "1" "a" (some (.scalar (.sint 2)))) 1 "1" "a"
        (some (.scalar (.sint 2)))) 1 "1" "a" = 1 ∧
     lookupMeta (setMeta (setMeta
        [{ content_type := 1, object_id := "1", key := "a"
           value := some (.scalar (.sbool true)) }]
        1 "1" "a" (some (.scalar (.sint 2)))) 1 "1" "a"
        (some (.scalar (.sint 2)))) 1 "1" "a" =
       some (some (.scalar (.sint 2)))) :=
  ⟨by decide,
    metadatum_triple_unique_invariant
      [{ content_type := 1, object_id := "1", key := "a"
         value := some (.scalar (.sbool true)) }]
      1 2 3 "1" "2" "3" "a" (some (.scalar (.sint 2))) (by decide)⟩

/-- C10: a `Metadatum` row with a null value is a legal stored state, and
reading the entity's metadata yields a mapping that contains that key bound
to None rather than omitting it. -/
theorem null_value_key_present (db : List Metadatum) (ct : Nat)
    (oid k : String) (h : KeyUnique db)
    (hm : ({ content_type := ct, object_id := oid, key := k
             value := none } : Metadatum) ∈ db) :
    lookupMeta db ct oid k = some none ∧
    (k, (none : Option Value)) ∈ get_metadata_form_initial_data db ct oid := by
  refine ⟨lookupMeta_of_mem _ db h hm, ?_⟩
  unfold get_metadata_form_initial_data metadataAll
  exact List.mem_map.mpr
    ⟨_, List.mem_filter.mpr ⟨hm, by simp [entityMatch]⟩, rfl⟩

/-- C10 (witness): a one-row table whose single value is null satisfies the
uniqueness invariant, and the key is reported with value None. -/
theorem null_value_key_present_witness :
    KeyUnique [{ content_type := 1, object_id := "1", key := "k"
                 value := none }] ∧
    (({ content_type := 1, object_id := "1", key := "k"
        value := none } : Metadatum) ∈
      [{ content_type := 1, object_id := "1", key := "k"
         value := none }]) ∧
    (lookupMeta [{ content_type := 1, object_id := "1", key := "k"
                   value := none }] 1 "1" "k" = some none ∧
     ("k", (none : Option Value)) ∈ get_metadata_form_initial_data
        [{ content_type := 1, object_id := "1", key := "k"
           value := none }] 1 "1") :=
  ⟨by decide, by decide,
    null_value_key_present
      [{ content_type := 1, object_id := "1", key := "k", value := none }]
      1 "1" "k" (by decide) (by decide)⟩

/-- C5 (counterexample to the original claim): deleting a `HasMetadata`
entity does not leave its `Metadatum` rows stored — Django's collector
follows the `GenericRelation` declared on `HasMetadata` and deletes the
row. -/
theorem deleteEntity_cascade_counterexample :
    (({ content_type := 1, object_id := "1", key := "k"
        value := some (.scalar (.sbool true)) } : Metadatum) ∈
      ({ objects := [(1, "1")]
         metadata := [{ content_type := 1, object_id := "1", key := "k"
                        value := some (.scalar (.sbool true)) }] } :
        DBState).metadata) ∧
    (({ content_type := 1, object_id := "1", key := "k"
        value := some (.scalar (.sbool true)) } : Metadatum) ∉
      (deleteEntity [1]
        { objects := [(1, "1")]
          metadata := [{ content_type := 1, object_id := "1", key := "k"
                         value := some (.scalar (.sbool true)) }] }
        (1, "1")).metadata) := by
  decide

/-- C5 (amended): deleting a `Metadatum` never affects the entity, and
deleting an entity whose model does not declare the metadata
`GenericRelation` leaves every `Metadatum` row stored and unchanged; only
entities of `HasMetadata` models cascade-delete their own rows. -/
theorem weak_reference_deletion_amended (cts : List Nat) (st : DBState)
    (e : Nat × String) (m : Metadatum) (h : cts.contains e.1 = false) :
    (deleteEntity cts st e).metadata = st.metadata ∧
    (deleteMetadatum st m).objects = st.objects := by
  constructor
  · unfold deleteEntity
    rw [h]
    simp
  · rfl

/-- C5 (witness): deleting an entity of a model without the
`GenericRelation` leaves a concrete metadata table untouched, and deleting
a row leaves the object table untouched. -/
theorem weak_reference_deletion_amended_witness :
    ([] : List Nat).contains 2 = false ∧
    ((deleteEntity []
        { objects := [(2, "5")]
          metadata := [{ content_type := 2, object_id := "5", key := "k"
                         value := none }] } (2, "5")).metadata =
      ({ objects := [(2, "5")]
         metadata := [{ content_type := 2, object_id := "5", key := "k"
                        value := none }] } : DBState).metadata ∧
     (deleteMetadatum
        { objects := [(2, "5")]
          metadata := [{ content_type := 2, object_id := "5", key := "k"
                         value := none }] }
        { content_type := 2, object_id := "5", key := "k"
          value := none }).objects =
      ({ objects := [(2, "5")]
         metadata := [{ content_type := 2, object_id := "5", key := "k"
                        value := none }] } : DBState).objects) :=
  ⟨rfl,
    weak_reference_deletion_amended []
      { objects := [(2, "5")]
        metadata := [{ content_type := 2, object_id := "5", key := "k"
                       value := none }] } (2, "5")
      { content_type := 2, object_id := "5", key := "k", value := none }
      rfl⟩

end JasminMetadata
